import Mathlib

/-
Verification development for the dependency-aware lifecycle orchestrator
(`framework` package: component.go, cleanup.go).

Shallow embedding conventions:
* Components are opaque units identified by reference identity in Go; we
  identify them by `Nat` ids.
* `dependantComponents` is a Go map `map[Component][]Component`; we model it
  as a total function `Component → List Component` defaulting to `[]`.  The
  Go code distinguishes a missing key from an empty slice only through the
  `ok` flag, and in every use an absent key behaves exactly like an empty
  list, so the two representations coincide behaviorally.
* `startedComponents` is a Go map `map[Component]bool` used as a set (only
  `true` is ever stored); we model it as the list of keys in insertion
  order.  Only membership is consulted by the code.
* Component `Start`/`Stop` behavior is opaque; we parametrize runs by
  `ok : Component → Bool` (the outcome of `Start`) and
  `stopOk : Component → Bool` (the outcome of `Stop`).
* Go's recursion in `startComponent` has no termination guarantee; the
  embedding adds an explicit fuel parameter.  `Res.noFuel` is the embedding
  artifact returned when the fuel runs out; theorems about terminating runs
  quantify over sufficient fuel.
* The field `startCalls` is observational instrumentation recording, in
  order, the invocations of `component.Start(ctx)`; it has no counterpart
  in the Go struct and is never read by the embedded code.
-/

namespace Framework

/-- Opaque component identity (Go: interface value identity). -/
abbrev Component := Nat

/-- The dependency map `map[Component][]Component`, total with default `[]`. -/
abbrev Graph := Component → List Component

/-- The two sentinel registration errors of component.go. -/
inductive RegError
  | alreadyRegistered
  | dependencyCycle
deriving DecidableEq, Repr

/-- Outcome of a start run: success, a component `Start` failure (Go: the
wrapped non-nil error), or fuel exhaustion (embedding artifact for the
unbounded Go recursion). -/
inductive Res
  | ok
  | startErr
  | noFuel
deriving DecidableEq, Repr

/-- cleanup.go: `type Function struct { Name string; Action Closer }`.
The only `Closer` the orchestrator pushes is the `CloseFunc` closure that
invokes `component.Stop` and logs (but swallows) its error, so the action
is represented by the component id it stops. -/
structure Function where
  name : String
  action : Component
deriving DecidableEq, Repr

/-- cleanup.go: `type Stack struct { Functions []*Function }`. -/
structure Stack where
  Functions : List Function
deriving DecidableEq, Repr

/-- cleanup.go: `NewStack`. -/
def NewStack : Stack := ⟨[]⟩

/-- cleanup.go: `Stack.push` appends at the end of the slice. -/
def Stack.push (s : Stack) (f : Function) : Stack :=
  ⟨s.Functions ++ [f]⟩

/-- cleanup.go: `Stack.Add` wraps the action in a named `Function` and
pushes it. -/
def Stack.Add (s : Stack) (nm : String) (c : Component) : Stack :=
  s.push ⟨nm, c⟩

/-- cleanup.go: `Stack.pop` removes and returns the last element when the
slice is nonempty, else nil. -/
def Stack.pop (s : Stack) : Option (Function × Stack) :=
  if h : 0 < s.Functions.length then
    some (s.Functions.getLast (List.length_pos.mp h), ⟨s.Functions.dropLast⟩)
  else
    none

/-- cleanup.go: `Stack.Close` pops and invokes actions until the stack is
empty.  Each invoked action is the `CloseFunc` closure from component.go
line 122: it calls `component.Stop(ctx)` and, when that errors, prints the
failure and continues.  The embedding returns the invocation trace, the
trace of logged stop failures, and the final stack. -/
def Stack.Close (stopOk : Component → Bool) (s : Stack) :
    List Component × List Component × Stack :=
  match h : s.pop with
  | none => ([], [], s)
  | some (f, rest) =>
    let logged := if stopOk f.action then [] else [f.action]
    let r := Stack.Close stopOk rest
    (f.action :: r.1, logged ++ r.2.1, r.2.2)
termination_by s.Functions.length
decreasing_by
  unfold Stack.pop at h
  split at h
  next hlen =>
    simp only [Option.some.injEq, Prod.mk.injEq] at h
    rw [← h.2]
    simp only [List.length_dropLast]
    omega
  next =>
    exact absurd h (by simp)

/-- component.go: the `Service` struct, plus the `startCalls`
instrumentation trace of `component.Start` invocations. -/
structure Service where
  components : List Component
  dependantComponents : Graph
  startedComponents : List Component
  closingStack : Stack
  startCalls : List Component

/-- component.go: `NewService`. -/
def NewService (components : List Component) : Service :=
  { components := components
    dependantComponents := fun _ => []
    startedComponents := []
    closingStack := NewStack
    startCalls := [] }

/-- component.go: `RegisterDependentComponents` registers that `a` depends
on `b`.  It first rejects the direct reverse edge (dependency cycle), then
an existing identical edge (already registered), otherwise appends `b` to
`a`'s dependency list.  Go mutates the receiver and returns only the error;
the embedding returns the error alongside the (possibly unchanged)
service. -/
def Service.RegisterDependentComponents (s : Service) (a b : Component) :
    Option RegError × Service :=
  if a ∈ s.dependantComponents b then
    (some RegError.dependencyCycle, s)
  else if b ∈ s.dependantComponents a then
    (some RegError.alreadyRegistered, s)
  else
    (none,
      { s with
        dependantComponents := fun x =>
          if x = a then s.dependantComponents a ++ [b]
          else s.dependantComponents x })

/-- component.go: `checkForDependantComponents` returns the dependencies of
a component that have not yet been started (nil when the component has no
entry, which coincides with the empty list). -/
def Service.checkForDependantComponents (s : Service) (componentToCheck : Component) :
    List Component :=
  (s.dependantComponents componentToCheck).filter
    (fun d => decide (d ∉ s.startedComponents))

/-- The dependency loop shared by `Service.Start` (loop over
`s.components`) and `Service.startComponent` (loop over the unstarted
dependencies): call `step` on each element in order, and return the first
non-nil error immediately, leaving the service as the failing call left
it. -/
def startDeps (step : Service → Component → Service × Res)
    (s : Service) (ds : List Component) : Service × Res :=
  match ds with
  | [] => (s, Res.ok)
  | d :: rest =>
    let p := step s d
    if p.2 = Res.ok then startDeps step p.1 rest else p

/-- component.go: `startComponent`.  Skip a component already marked
started; otherwise start its unstarted dependencies first (failures
propagate), then invoke the component's own `Start` (recorded in
`startCalls`); on success push the stop action onto the closing stack and
mark the component started, on failure propagate the error without marking
or recording anything. -/
def Service.startComponent (ok : Component → Bool) :
    Nat → Service → Component → Service × Res
  | 0, s, _ => (s, Res.noFuel)
  | fuel + 1, s, c =>
    if c ∈ s.startedComponents then (s, Res.ok)
    else
      let p := startDeps (Service.startComponent ok fuel) s
          (s.checkForDependantComponents c)
      if p.2 = Res.ok then
        if ok c then
          ({ p.1 with
              startCalls := p.1.startCalls ++ [c]
              closingStack := p.1.closingStack.Add "something" c
              startedComponents := p.1.startedComponents ++ [c] }, Res.ok)
        else
          ({ p.1 with startCalls := p.1.startCalls ++ [c] }, Res.startErr)
      else p

/-- component.go: `Service.Start` runs `startComponent` over the
caller-supplied component list in order, returning the first wrapped
failure. -/
def Service.Start (ok : Component → Bool) (fuel : Nat) (s : Service) :
    Service × Res :=
  startDeps (Service.startComponent ok fuel) s s.components

/-- component.go: `Service.Stop` drains the closing stack; it returns no
error to the caller.  The embedding additionally reports the stop
invocation trace and the logged stop failures. -/
def Service.Stop (stopOk : Component → Bool) (s : Service) :
    List Component × List Component × Service :=
  match s.closingStack.Close stopOk with
  | (inv, logs, fin) => (inv, logs, { s with closingStack := fin })

/-! ### Specification predicates and auxiliary definitions -/

/-- Facts relating a start state to any of its successors: the dependency
graph and component list are never modified by a start run, and the
started set, the call trace and the closing stack only grow at the end. -/
def Evo (s s' : Service) : Prop :=
  s'.dependantComponents = s.dependantComponents ∧
  s'.components = s.components ∧
  s.startedComponents <+: s'.startedComponents ∧
  s.startCalls <+: s'.startCalls ∧
  s.closingStack.Functions <+: s'.closingStack.Functions

/-- Every dependency of every entry of `l` occurs strictly earlier in `l`
(dependencies-before-dependent order). -/
def OrderedBefore (g : Graph) (l : List Component) : Prop :=
  ∀ (n : Nat) (x : Component), l[n]? = some x →
    ∀ d ∈ g x, ∃ m : Nat, m < n ∧ l[m]? = some d

/-- Invariant of every failure-free start state: the started set (in
insertion order) coincides with the `Start`-invocation trace, the closing
stack holds exactly one teardown action per started component in that same
order, no component is started twice, and every started component's
dependencies were started strictly before it. -/
def CleanInv (s : Service) : Prop :=
  s.startedComponents = s.startCalls ∧
  s.closingStack.Functions.map Function.action = s.startedComponents ∧
  s.startedComponents.Nodup ∧
  OrderedBefore s.dependantComponents s.startedComponents

/-- State reached when a component `Start` failure has been propagated:
some component `f` whose `Start` returned an error was the last (and only
unsuccessful) invocation, it is not marked started and has no teardown
action, and the failure-free part of the invariant still holds. -/
def ErrInv (ok : Component → Bool) (s : Service) : Prop :=
  ∃ f, ok f = false ∧ f ∉ s.startedComponents ∧
    s.startCalls = s.startedComponents ++ [f] ∧
    s.closingStack.Functions.map Function.action = s.startedComponents ∧
    s.startedComponents.Nodup ∧
    OrderedBefore s.dependantComponents s.startedComponents

/-- A dependency chain in `g` from `a` to `b`, all of whose nodes avoid
the `blocked` list (used with `blocked` = the started set: the recursion
of `startComponent` only descends along such chains). -/
inductive UChain (g : Graph) (blocked : List Component) :
    Component → Component → Prop
  | refl {a} : a ∉ blocked → UChain g blocked a a
  | snoc {a b c} : UChain g blocked a b → c ∈ g b → c ∉ blocked →
      UChain g blocked a c

/-- Components reachable from the top-level list by following dependency
edges. -/
inductive Reachable (g : Graph) (roots : List Component) : Component → Prop
  | root {c} : c ∈ roots → Reachable g roots c
  | dep {c d} : Reachable g roots c → d ∈ g c → Reachable g roots d

/-- A service as produced by `NewService` followed by any sequence of
successful or failed `RegisterDependentComponents` calls: an arbitrary
dependency graph over an arbitrary component list, with the run-time
state (started set, closing stack, call trace) still empty.  See
`register_preserves_runtime_state`. -/
def Configured (cs : List Component) (g : Graph) : Service :=
  { components := cs
    dependantComponents := g
    startedComponents := []
    closingStack := NewStack
    startCalls := [] }

/-- Concrete graph of §8's chain scenario: A(0) depends on B(1), B(1)
depends on C(2). -/
def chainGraph : Graph := fun c =>
  if c = 0 then [1] else if c = 1 then [2] else []

/-- Concrete graph of §8's diamond scenario: A(0) depends on B(1) and
C(2); B(1) depends on C(2). -/
def diamondGraph : Graph := fun c =>
  if c = 0 then [1, 2] else if c = 1 then [2] else []

/-- Concrete graph with two sibling dependencies registered in order. -/
def sibGraph : Graph := fun c =>
  if c = 0 then [1, 2] else []

/-- Concrete graph with a self-edge on component 0. -/
def selfLoopGraph : Graph := fun c =>
  if c = 0 then [0] else []

/-- Service with the three-node dependency cycle 0→1→2→0 built through
`RegisterDependentComponents` (all three calls succeed — see C9). -/
def cycle3Service : Service :=
  ((((NewService [0, 1, 2]).RegisterDependentComponents 0 1).2.RegisterDependentComponents
      1 2).2.RegisterDependentComponents 2 0).2

/-! ### Closing-stack lemmas -/

theorem Stack.pop_none {s : Stack} (h : s.Functions = []) : s.pop = none := by
  unfold Stack.pop
  simp [h]

theorem Stack.pop_concat (l : List Function) (f : Function) :
    Stack.pop ⟨l ++ [f]⟩ = some (f, ⟨l⟩) := by
  unfold Stack.pop
  have hlen : 0 < (l ++ [f]).length := by simp
  rw [dif_pos hlen]
  simp [List.getLast_append, List.dropLast_concat]

theorem Stack.Close_nil (stopOk : Component → Bool) :
    Stack.Close stopOk ⟨[]⟩ = ([], [], ⟨[]⟩) := by
  rw [Stack.Close]
  rw [Stack.pop_none rfl]

theorem Stack.Close_concat (stopOk : Component → Bool) (l : List Function)
    (f : Function) :
    Stack.Close stopOk ⟨l ++ [f]⟩ =
      (f.action :: (Stack.Close stopOk ⟨l⟩).1,
       (if stopOk f.action then [] else [f.action]) ++ (Stack.Close stopOk ⟨l⟩).2.1,
       (Stack.Close stopOk ⟨l⟩).2.2) := by
  rw [Stack.Close]
  rw [Stack.pop_concat]

/-- Draining the stack invokes every pushed action exactly once, in reverse
push order, logs exactly the failing stops in that same order, and leaves
the stack empty — whatever the stop outcomes are. -/
theorem Stack.Close_eq (stopOk : Component → Bool) (s : Stack) :
    Stack.Close stopOk s =
      ((s.Functions.map Function.action).reverse,
       ((s.Functions.map Function.action).reverse.filter fun c => !stopOk c),
       (⟨[]⟩ : Stack)) := by
  obtain ⟨l⟩ := s
  induction l using List.reverseRecOn with
  | nil => simp [Stack.Close_nil]
  | append_singleton l f ih =>
    rw [Stack.Close_concat, ih]
    simp only [List.map_append, List.map_cons, List.map_nil, List.reverse_append,
      List.reverse_cons, List.reverse_nil, List.nil_append, List.cons_append,
      List.filter_cons]
    cases h : stopOk f.action <;> simp [h]

/-- `Service.Stop` in closed form: the invocation trace is the reverse of
the pushed actions, the log trace keeps exactly the failing stops, and the
closing stack ends empty. -/
theorem Stop_eq (stopOk : Component → Bool) (s : Service) :
    s.Stop stopOk
      = ((s.closingStack.Functions.map Function.action).reverse,
         ((s.closingStack.Functions.map Function.action).reverse.filter
            fun c => !stopOk c),
         { s with closingStack := ⟨[]⟩ }) := by
  unfold Service.Stop
  rw [Stack.Close_eq]

/-! ### Registration claims -/

/-- C6: after "a depends on b" is registered, registering the reverse edge
"b depends on a" fails with the dependency-cycle error and returns the
service (hence the dependency graph) unchanged. -/
theorem register_reverse_edge_cycle_error (s : Service) (a b : Component)
    (h : (s.RegisterDependentComponents a b).1 = none) :
    Service.RegisterDependentComponents (s.RegisterDependentComponents a b).2 b a
      = (some RegError.dependencyCycle, (s.RegisterDependentComponents a b).2) := by
  unfold Service.RegisterDependentComponents at h ⊢
  by_cases h1 : a ∈ s.dependantComponents b
  · simp [h1] at h
  · by_cases h2 : b ∈ s.dependantComponents a
    · simp [h1, h2] at h
    · simp [h1, h2]

theorem register_reverse_edge_cycle_error_witness :
    Service.RegisterDependentComponents
        ((NewService [0, 1]).RegisterDependentComponents 0 1).2 1 0
      = (some RegError.dependencyCycle,
         ((NewService [0, 1]).RegisterDependentComponents 0 1).2) :=
  register_reverse_edge_cycle_error (NewService [0, 1]) 0 1 (by decide)

/-- C7 counterexample: with A and B the same component, registering the
edge twice yields the dependency-cycle error on the second call, not the
already-registered error — the reverse-edge check fires first. -/
theorem register_twice_same_component_cycle_error :
    ((NewService [0]).RegisterDependentComponents 0 0).1 = none ∧
    (Service.RegisterDependentComponents
        ((NewService [0]).RegisterDependentComponents 0 0).2 0 0).1
      = some RegError.dependencyCycle ∧
    (Service.RegisterDependentComponents
        ((NewService [0]).RegisterDependentComponents 0 0).2 0 0).1
      ≠ some RegError.alreadyRegistered := by
  refine ⟨by decide, by decide, by decide⟩

/-- C7 amended: for two distinct components A and B, after
RegisterDependentComponents(A, B) succeeds, a second identical call
returns the already-registered error and leaves the service unchanged. -/
theorem register_twice_distinct_already_registered (s : Service)
    (a b : Component) (hab : a ≠ b)
    (h : (s.RegisterDependentComponents a b).1 = none) :
    Service.RegisterDependentComponents (s.RegisterDependentComponents a b).2 a b
      = (some RegError.alreadyRegistered, (s.RegisterDependentComponents a b).2) := by
  unfold Service.RegisterDependentComponents at h ⊢
  by_cases h1 : a ∈ s.dependantComponents b
  · simp [h1] at h
  · by_cases h2 : b ∈ s.dependantComponents a
    · simp [h1, h2] at h
    · simp [h1, h2, Ne.symm hab]

theorem register_twice_distinct_already_registered_witness :
    Service.RegisterDependentComponents
        ((NewService [0, 1]).RegisterDependentComponents 0 1).2 0 1
      = (some RegError.alreadyRegistered,
         ((NewService [0, 1]).RegisterDependentComponents 0 1).2) :=
  register_twice_distinct_already_registered (NewService [0, 1]) 0 1
    (by decide) (by decide)

/-- C10: a first self-edge RegisterDependentComponents(a, a) succeeds and
appends `a` to its own dependency list, and a second such call then fails
with the dependency-cycle error (the reverse-edge check runs before the
duplicate check), not the already-registered error. -/
theorem register_self_edge_then_cycle_error (s : Service) (a : Component)
    (h : a ∉ s.dependantComponents a) :
    (s.RegisterDependentComponents a a).1 = none ∧
    (s.RegisterDependentComponents a a).2.dependantComponents a
      = s.dependantComponents a ++ [a] ∧
    (Service.RegisterDependentComponents
        (s.RegisterDependentComponents a a).2 a a).1
      = some RegError.dependencyCycle ∧
    (Service.RegisterDependentComponents
        (s.RegisterDependentComponents a a).2 a a).1
      ≠ some RegError.alreadyRegistered := by
  unfold Service.RegisterDependentComponents
  simp [h]

theorem register_self_edge_then_cycle_error_witness :
    ((NewService [0]).RegisterDependentComponents 0 0).1 = none ∧
    ((NewService [0]).RegisterDependentComponents 0 0).2.dependantComponents 0
      = (NewService [0]).dependantComponents 0 ++ [0] ∧
    (Service.RegisterDependentComponents
        ((NewService [0]).RegisterDependentComponents 0 0).2 0 0).1
      = some RegError.dependencyCycle ∧
    (Service.RegisterDependentComponents
        ((NewService [0]).RegisterDependentComponents 0 0).2 0 0).1
      ≠ some RegError.alreadyRegistered :=
  register_self_edge_then_cycle_error (NewService [0]) 0 (by decide)

/-- C8: a failing component Stop never interrupts the drain: Service.Stop
invokes every teardown action on the closing stack (in reverse push order)
whatever the stop outcomes are, reports exactly the failing stops through
the side channel (the log trace), returns no error value (its result
carries no error component at all), and leaves the stack empty. -/
theorem stop_drains_all_despite_errors (stopOk : Component → Bool) (s : Service) :
    (s.Stop stopOk).1 = (s.closingStack.Functions.map Function.action).reverse ∧
    (s.Stop stopOk).2.1
      = ((s.closingStack.Functions.map Function.action).reverse.filter
          fun c => !stopOk c) ∧
    (s.Stop stopOk).2.2.closingStack.Functions = [] := by
  rw [Stop_eq]
  exact ⟨rfl, rfl, rfl⟩

/-! ### Unfolding lemmas for the start recursion -/

theorem startDeps_nil (step : Service → Component → Service × Res)
    (s : Service) : startDeps step s [] = (s, Res.ok) := rfl

theorem startDeps_cons (step : Service → Component → Service × Res)
    (s : Service) (d : Component) (rest : List Component) :
    startDeps step s (d :: rest) =
      if (step s d).2 = Res.ok then startDeps step (step s d).1 rest
      else step s d := rfl

theorem startComponent_zero (ok : Component → Bool) (s : Service)
    (c : Component) : Service.startComponent ok 0 s c = (s, Res.noFuel) := rfl

theorem startComponent_succ (ok : Component → Bool) (fuel : Nat) (s : Service)
    (c : Component) :
    Service.startComponent ok (fuel + 1) s c =
      if c ∈ s.startedComponents then (s, Res.ok)
      else
        if (startDeps (Service.startComponent ok fuel) s
            (s.checkForDependantComponents c)).2 = Res.ok then
          if ok c then
            ({ (startDeps (Service.startComponent ok fuel) s
                  (s.checkForDependantComponents c)).1 with
                startCalls := (startDeps (Service.startComponent ok fuel) s
                  (s.checkForDependantComponents c)).1.startCalls ++ [c]
                closingStack := (startDeps (Service.startComponent ok fuel) s
                  (s.checkForDependantComponents c)).1.closingStack.Add
                    "something" c
                startedComponents := (startDeps (Service.startComponent ok fuel)
                  s (s.checkForDependantComponents c)).1.startedComponents
                    ++ [c] }, Res.ok)
          else
            ({ (startDeps (Service.startComponent ok fuel) s
                  (s.checkForDependantComponents c)).1 with
                startCalls := (startDeps (Service.startComponent ok fuel) s
                  (s.checkForDependantComponents c)).1.startCalls ++ [c] },
              Res.startErr)
        else
          startDeps (Service.startComponent ok fuel) s
            (s.checkForDependantComponents c) := rfl

/-! ### Evolution facts (frame and monotonicity) -/

theorem Evo.evoRefl (s : Service) : Evo s s :=
  ⟨rfl, rfl, List.prefix_refl _, List.prefix_refl _, List.prefix_refl _⟩

theorem Evo.trans {s1 s2 s3 : Service} (h12 : Evo s1 s2) (h23 : Evo s2 s3) :
    Evo s1 s3 :=
  ⟨h23.1.trans h12.1, h23.2.1.trans h12.2.1,
   h12.2.2.1.trans h23.2.2.1,
   h12.2.2.2.1.trans h23.2.2.2.1,
   h12.2.2.2.2.trans h23.2.2.2.2⟩

theorem startDeps_evo {step : Service → Component → Service × Res}
    (hstep : ∀ s c, Evo s (step s c).1) :
    ∀ (ds : List Component) (s : Service), Evo s (startDeps step s ds).1 := by
  intro ds
  induction ds with
  | nil => intro s; exact Evo.evoRefl s
  | cons d rest ih =>
    intro s
    rw [startDeps_cons]
    by_cases hp : (step s d).2 = Res.ok
    · rw [if_pos hp]
      exact (hstep s d).trans (ih _)
    · rw [if_neg hp]
      exact hstep s d

theorem startComponent_evo (ok : Component → Bool) :
    ∀ (fuel : Nat) (s : Service) (c : Component),
      Evo s (Service.startComponent ok fuel s c).1 := by
  intro fuel
  induction fuel with
  | zero => intro s c; exact Evo.evoRefl s
  | succ fuel ih =>
    intro s c
    rw [startComponent_succ]
    by_cases hc : c ∈ s.startedComponents
    · rw [if_pos hc]
      exact Evo.evoRefl s
    · rw [if_neg hc]
      have hdep : Evo s (startDeps (Service.startComponent ok fuel) s
          (s.checkForDependantComponents c)).1 :=
        startDeps_evo (fun s' c' => ih s' c') _ _
      by_cases hp : (startDeps (Service.startComponent ok fuel) s
          (s.checkForDependantComponents c)).2 = Res.ok
      · rw [if_pos hp]
        by_cases hok : ok c
        · rw [if_pos hok]
          exact hdep.trans ⟨rfl, rfl, List.prefix_append _ _,
            List.prefix_append _ _, List.prefix_append _ _⟩
        · rw [if_neg hok]
          exact hdep.trans ⟨rfl, rfl, List.prefix_refl _,
            List.prefix_append _ _, List.prefix_refl _⟩
      · rw [if_neg hp]
        exact hdep

/-! ### Success marks the component started -/

theorem startComponent_mem (ok : Component → Bool) (fuel : Nat) (s : Service)
    (c : Component) (h : (Service.startComponent ok fuel s c).2 = Res.ok) :
    c ∈ (Service.startComponent ok fuel s c).1.startedComponents := by
  cases fuel with
  | zero => exact Res.noConfusion h
  | succ fuel =>
    rw [startComponent_succ] at h ⊢
    by_cases hc : c ∈ s.startedComponents
    · rw [if_pos hc] at h ⊢
      exact hc
    · rw [if_neg hc] at h ⊢
      by_cases hp : (startDeps (Service.startComponent ok fuel) s
          (s.checkForDependantComponents c)).2 = Res.ok
      · rw [if_pos hp] at h ⊢
        by_cases hok : ok c
        · rw [if_pos hok]
          simp
        · rw [if_neg hok] at h
          exact Res.noConfusion h
      · rw [if_neg hp] at h
        exact absurd h hp

theorem startDeps_mem {step : Service → Component → Service × Res}
    (hevo : ∀ s c, Evo s (step s c).1)
    (hmem : ∀ s c, (step s c).2 = Res.ok → c ∈ (step s c).1.startedComponents) :
    ∀ (ds : List Component) (s : Service),
      (startDeps step s ds).2 = Res.ok →
      ∀ d ∈ ds, d ∈ (startDeps step s ds).1.startedComponents := by
  intro ds
  induction ds with
  | nil =>
    intro s _ d hd
    exact absurd hd (List.not_mem_nil d)
  | cons d rest ih =>
    intro s h e he
    rw [startDeps_cons] at h ⊢
    by_cases hp : (step s d).2 = Res.ok
    · rw [if_pos hp] at h ⊢
      rcases List.mem_cons.mp he with rfl | hrest
      · have h1 : e ∈ (step s e).1.startedComponents := hmem s e hp
        have h2 : Evo (step s e).1 (startDeps step (step s e).1 rest).1 :=
          startDeps_evo hevo rest _
        exact h2.2.2.1.subset h1
      · exact ih _ h e hrest
    · rw [if_neg hp] at h
      exact absurd h hp

/-! ### Registration touches only the dependency graph -/

theorem register_preserves_runtime_state (s : Service) (a b : Component) :
    (s.RegisterDependentComponents a b).2.components = s.components ∧
    (s.RegisterDependentComponents a b).2.startedComponents
      = s.startedComponents ∧
    (s.RegisterDependentComponents a b).2.closingStack = s.closingStack ∧
    (s.RegisterDependentComponents a b).2.startCalls = s.startCalls := by
  unfold Service.RegisterDependentComponents
  split_ifs <;> exact ⟨rfl, rfl, rfl, rfl⟩

theorem cleanInv_configured (cs : List Component) (g : Graph) :
    CleanInv (Configured cs g) := by
  refine ⟨rfl, rfl, List.nodup_nil, ?_⟩
  intro n x hx
  simp [Configured] at hx

/-! ### Membership in the unstarted-dependency list -/

theorem mem_checkFor {s : Service} {c d : Component}
    (h : d ∈ s.checkForDependantComponents c) :
    d ∈ s.dependantComponents c ∧ d ∉ s.startedComponents := by
  unfold Service.checkForDependantComponents at h
  have hh := List.mem_filter.mp h
  exact ⟨hh.1, by simpa using hh.2⟩

theorem checkFor_mem {s : Service} {c d : Component}
    (h1 : d ∈ s.dependantComponents c) (h2 : d ∉ s.startedComponents) :
    d ∈ s.checkForDependantComponents c := by
  unfold Service.checkForDependantComponents
  exact List.mem_filter.mpr ⟨h1, by simpa using h2⟩

/-! ### Chains of unstarted components -/

theorem UChain.left_not_blocked {g : Graph} {blocked : List Component}
    {a b : Component} (h : UChain g blocked a b) : a ∉ blocked := by
  induction h with
  | refl h => exact h
  | snoc _ _ _ ih => exact ih

theorem UChain.prepend {g : Graph} {blocked : List Component}
    {a b c : Component} (ha : a ∉ blocked) (hab : b ∈ g a)
    (h : UChain g blocked b c) : UChain g blocked a c := by
  induction h with
  | refl hb => exact UChain.snoc (UChain.refl ha) hab hb
  | snoc _ hcg hcb ih => exact UChain.snoc ih hcg hcb

theorem UChain.mono {g : Graph} {blocked blocked' : List Component}
    (hsub : blocked' ⊆ blocked) {a b : Component}
    (h : UChain g blocked a b) : UChain g blocked' a b := by
  induction h with
  | refl hb => exact UChain.refl (fun hx => hb (hsub hx))
  | snoc _ hcg hcb ih => exact UChain.snoc ih hcg (fun hx => hcb (hsub hx))

theorem UChain.head_or {g : Graph} {blocked : List Component}
    {a c : Component} (h : UChain g blocked a c) :
    a = c ∨ ∃ b, b ∈ g a ∧ UChain g blocked b c := by
  induction h with
  | refl _ => exact Or.inl rfl
  | snoc _ hcg hcb ih =>
    rcases ih with rfl | ⟨b', hb', hch⟩
    · exact Or.inr ⟨_, hcg, UChain.refl hcb⟩
    · exact Or.inr ⟨b', hb', UChain.snoc hch hcg hcb⟩

/-- Every component newly started during a `startDeps` run is reached from
one of the processed list elements by a dependency chain that avoids the
initially started set. -/
theorem startDeps_chain {step : Service → Component → Service × Res}
    (hevo : ∀ s c, Evo s (step s c).1)
    (hchain : ∀ s c x, x ∈ (step s c).1.startedComponents →
      x ∉ s.startedComponents →
      UChain s.dependantComponents s.startedComponents c x) :
    ∀ (ds : List Component) (s : Service) (x : Component),
      x ∈ (startDeps step s ds).1.startedComponents →
      x ∉ s.startedComponents →
      ∃ d ∈ ds, UChain s.dependantComponents s.startedComponents d x := by
  intro ds
  induction ds with
  | nil =>
    intro s x hx hnx
    exact absurd hx hnx
  | cons d rest ih =>
    intro s x hx hnx
    rw [startDeps_cons] at hx
    by_cases hp : (step s d).2 = Res.ok
    · rw [if_pos hp] at hx
      by_cases hx1 : x ∈ (step s d).1.startedComponents
      · exact ⟨d, List.mem_cons_self d rest, hchain s d x hx1 hnx⟩
      · obtain ⟨d', hd', hch⟩ := ih (step s d).1 x hx hx1
        have hdeq : (step s d).1.dependantComponents = s.dependantComponents :=
          (hevo s d).1
        have hsub : s.startedComponents ⊆ (step s d).1.startedComponents :=
          (hevo s d).2.2.1.subset
        rw [hdeq] at hch
        exact ⟨d', List.mem_cons_of_mem d hd', hch.mono hsub⟩
    · rw [if_neg hp] at hx
      exact ⟨d, List.mem_cons_self d rest, hchain s d x hx hnx⟩

/-- Every component newly started by a `startComponent` call is reached
from the call's component by a dependency chain avoiding the initially
started set. -/
theorem startComponent_chain (ok : Component → Bool) :
    ∀ (fuel : Nat) (s : Service) (c x : Component),
      x ∈ (Service.startComponent ok fuel s c).1.startedComponents →
      x ∉ s.startedComponents →
      UChain s.dependantComponents s.startedComponents c x := by
  intro fuel
  induction fuel with
  | zero =>
    intro s c x hx hnx
    exact absurd hx hnx
  | succ fuel ih =>
    intro s c x hx hnx
    rw [startComponent_succ] at hx
    by_cases hc : c ∈ s.startedComponents
    · rw [if_pos hc] at hx
      exact absurd hx hnx
    · rw [if_neg hc] at hx
      have hfrom : ∀ y, y ∈ (startDeps (Service.startComponent ok fuel) s
          (s.checkForDependantComponents c)).1.startedComponents →
          y ∉ s.startedComponents →
          UChain s.dependantComponents s.startedComponents c y := by
        intro y hy hny
        obtain ⟨d, hd, hch⟩ := startDeps_chain
          (fun s' c' => startComponent_evo ok fuel s' c')
          (fun s' c' x' => ih s' c' x') _ s y hy hny
        exact UChain.prepend hc (mem_checkFor hd).1 hch
      by_cases hp : (startDeps (Service.startComponent ok fuel) s
          (s.checkForDependantComponents c)).2 = Res.ok
      · rw [if_pos hp] at hx
        by_cases hok : ok c
        · rw [if_pos hok] at hx
          rcases List.mem_append.mp hx with hx1 | hx2
          · exact hfrom x hx1 hnx
          · rcases List.mem_singleton.mp hx2 with rfl
            exact UChain.refl hc
        · rw [if_neg hok] at hx
          exact hfrom x hx hnx
      · rw [if_neg hp] at hx
        exact hfrom x hx hnx

/-! ### No member of a successor-closed unstarted set is ever started -/

theorem startDeps_frozen {step : Service → Component → Service × Res}
    (g : Graph) (S : Component → Prop)
    (hframe : ∀ s c, (step s c).1.dependantComponents = s.dependantComponents)
    (hstep : ∀ s c, s.dependantComponents = g →
      (∀ y, S y → y ∉ s.startedComponents) →
      ∀ y, S y → y ∉ (step s c).1.startedComponents) :
    ∀ (ds : List Component) (s : Service), s.dependantComponents = g →
      (∀ y, S y → y ∉ s.startedComponents) →
      ∀ y, S y → y ∉ (startDeps step s ds).1.startedComponents := by
  intro ds
  induction ds with
  | nil =>
    intro s _ hdisj y hy
    exact hdisj y hy
  | cons d rest ih =>
    intro s hg hdisj y hy
    rw [startDeps_cons]
    by_cases hp : (step s d).2 = Res.ok
    · rw [if_pos hp]
      exact ih _ ((hframe s d).trans hg) (hstep s d hg hdisj) y hy
    · rw [if_neg hp]
      exact hstep s d hg hdisj y hy

/-- If every member of `S` has a dependency successor inside `S` (e.g. `S`
is the node set of a dependency cycle) and no member of `S` is started,
then no start run can ever start a member of `S`: the first member to be
marked started would need its `S`-successor to have completed first. -/
theorem startComponent_frozen (ok : Component → Bool) (g : Graph)
    (S : Component → Prop)
    (hS : ∀ y, S y → ∃ z, z ∈ g y ∧ S z) :
    ∀ (fuel : Nat) (s : Service) (c : Component), s.dependantComponents = g →
      (∀ y, S y → y ∉ s.startedComponents) →
      ∀ y, S y →
        y ∉ (Service.startComponent ok fuel s c).1.startedComponents := by
  intro fuel
  induction fuel with
  | zero =>
    intro s c _ hdisj y hy
    exact hdisj y hy
  | succ fuel ih =>
    intro s c hg hdisj y hy
    rw [startComponent_succ]
    by_cases hc : c ∈ s.startedComponents
    · rw [if_pos hc]
      exact hdisj y hy
    · rw [if_neg hc]
      have hdisj1 : ∀ z, S z →
          z ∉ (startDeps (Service.startComponent ok fuel) s
            (s.checkForDependantComponents c)).1.startedComponents :=
        startDeps_frozen g S
          (fun s' c' => (startComponent_evo ok fuel s' c').1)
          (fun s' c' => ih s' c') _ s hg hdisj
      by_cases hp : (startDeps (Service.startComponent ok fuel) s
          (s.checkForDependantComponents c)).2 = Res.ok
      · rw [if_pos hp]
        by_cases hok : ok c
        · rw [if_pos hok]
          intro hmem
          rcases List.mem_append.mp hmem with h1 | h2
          · exact hdisj1 y hy h1
          · rcases List.mem_singleton.mp h2 with rfl
            obtain ⟨z, hzg, hSz⟩ := hS y hy
            have hzds : z ∈ s.checkForDependantComponents y :=
              checkFor_mem (by rw [hg]; exact hzg) (hdisj z hSz)
            have hzmem := startDeps_mem
              (fun s' c' => startComponent_evo ok fuel s' c')
              (fun s' c' h' => startComponent_mem ok fuel s' c' h')
              _ s hp z hzds
            exact hdisj1 z hSz hzmem
        · rw [if_neg hok]
          exact hdisj1 y hy
      · rw [if_neg hp]
        exact hdisj1 y hy

/-- While `startComponent c` processes the unstarted dependencies of `c`,
no nested call can mark `c` itself started: a successful nested completion
of `c` would require a dependency cycle through `c`, and no node of such a
cycle can ever complete. -/
theorem startDeps_no_restart (ok : Component → Bool) (fuel : Nat)
    (s : Service) (c : Component) (hc : c ∉ s.startedComponents) :
    c ∉ (startDeps (Service.startComponent ok fuel) s
        (s.checkForDependantComponents c)).1.startedComponents := by
  intro hmem
  obtain ⟨d, hd, hch⟩ := startDeps_chain
    (fun s' c' => startComponent_evo ok fuel s' c')
    (fun s' c' x' => startComponent_chain ok fuel s' c' x') _ s c hmem hc
  have hS : ∀ y, UChain s.dependantComponents s.startedComponents y c →
      ∃ z, z ∈ s.dependantComponents y ∧
        UChain s.dependantComponents s.startedComponents z c := by
    intro y hy
    rcases hy.head_or with rfl | ⟨b, hb, hch'⟩
    · exact ⟨d, (mem_checkFor hd).1, hch⟩
    · exact ⟨b, hb, hch'⟩
  have hdisj : ∀ y, UChain s.dependantComponents s.startedComponents y c →
      y ∉ s.startedComponents := fun y hy => hy.left_not_blocked
  have hfrozen := startDeps_frozen s.dependantComponents
    (fun y => UChain s.dependantComponents s.startedComponents y c)
    (fun s' c' => (startComponent_evo ok fuel s' c').1)
    (fun s' c' => startComponent_frozen ok s.dependantComponents
      (fun y => UChain s.dependantComponents s.startedComponents y c)
      hS fuel s' c')
    (s.checkForDependantComponents c) s rfl hdisj c (UChain.refl hc)
  exact hfrozen hmem

/-! ### Index bookkeeping for the dependencies-before-dependent order -/

theorem mem_getElem? {l : List Component} {a : Component} (h : a ∈ l) :
    ∃ n : Nat, l[n]? = some a := by
  obtain ⟨n, hn, he⟩ := List.getElem_of_mem h
  exact ⟨n, by rw [List.getElem?_eq_getElem hn, he]⟩

theorem getElem?_mem {l : List Component} {a : Component} {n : Nat}
    (h : l[n]? = some a) : a ∈ l := by
  obtain ⟨hl, he⟩ := List.getElem?_eq_some.mp h
  exact he ▸ List.getElem_mem hl

theorem OrderedBefore.append {g : Graph} {l : List Component} {c : Component}
    (h : OrderedBefore g l) (hc : ∀ d ∈ g c, d ∈ l) :
    OrderedBefore g (l ++ [c]) := by
  intro n x hx d hd
  by_cases hn : n < l.length
  · rw [List.getElem?_append_left hn] at hx
    obtain ⟨m, hm, hmd⟩ := h n x hx d hd
    exact ⟨m, hm, by rw [List.getElem?_append_left (hm.trans hn)]; exact hmd⟩
  · have hnlen : n < (l ++ [c]).length := (List.getElem?_eq_some.mp hx).fst
    have hn' : n = l.length := by
      simp only [List.length_append, List.length_cons, List.length_nil] at hnlen
      omega
    subst hn'
    have hcx : (l ++ [c])[l.length]? = some c := by simp
    have hxc : x = c := by
      rw [hx] at hcx
      exact Option.some.injEq _ _ ▸ hcx
    subst hxc
    obtain ⟨m, hmd⟩ := mem_getElem? (hc d hd)
    have hmlt : m < l.length := (List.getElem?_eq_some.mp hmd).fst
    exact ⟨m, hmlt, by rw [List.getElem?_append_left hmlt]; exact hmd⟩

/-! ### The start invariant -/

theorem startDeps_inv {ok : Component → Bool}
    {step : Service → Component → Service × Res}
    (hstep : ∀ s c, CleanInv s →
      ((step s c).2 ≠ Res.startErr → CleanInv (step s c).1) ∧
      ((step s c).2 = Res.startErr → ErrInv ok (step s c).1)) :
    ∀ (ds : List Component) (s : Service), CleanInv s →
      ((startDeps step s ds).2 ≠ Res.startErr →
        CleanInv (startDeps step s ds).1) ∧
      ((startDeps step s ds).2 = Res.startErr →
        ErrInv ok (startDeps step s ds).1) := by
  intro ds
  induction ds with
  | nil =>
    intro s hs
    exact ⟨fun _ => hs, fun h => Res.noConfusion h⟩
  | cons d rest ih =>
    intro s hs
    rw [startDeps_cons]
    by_cases hp : (step s d).2 = Res.ok
    · rw [if_pos hp]
      exact ih _ ((hstep s d hs).1
        (fun heq => Res.noConfusion (hp.symm.trans heq)))
    · rw [if_neg hp]
      exact hstep s d hs

theorem startComponent_inv (ok : Component → Bool) :
    ∀ (fuel : Nat) (s : Service) (c : Component), CleanInv s →
      ((Service.startComponent ok fuel s c).2 ≠ Res.startErr →
        CleanInv (Service.startComponent ok fuel s c).1) ∧
      ((Service.startComponent ok fuel s c).2 = Res.startErr →
        ErrInv ok (Service.startComponent ok fuel s c).1) := by
  intro fuel
  induction fuel with
  | zero =>
    intro s c hs
    exact ⟨fun _ => hs, fun h => Res.noConfusion h⟩
  | succ fuel ih =>
    intro s c hs
    rw [startComponent_succ]
    by_cases hc : c ∈ s.startedComponents
    · rw [if_pos hc]
      exact ⟨fun _ => hs, fun h => Res.noConfusion h⟩
    · rw [if_neg hc]
      have hdeps := startDeps_inv (fun s' c' hs' => ih s' c' hs')
        (s.checkForDependantComponents c) s hs
      by_cases hp : (startDeps (Service.startComponent ok fuel) s
          (s.checkForDependantComponents c)).2 = Res.ok
      · rw [if_pos hp]
        have hclean1 : CleanInv (startDeps (Service.startComponent ok fuel) s
            (s.checkForDependantComponents c)).1 :=
          hdeps.1 (fun heq => Res.noConfusion (hp.symm.trans heq))
        have hnotin : c ∉ (startDeps (Service.startComponent ok fuel) s
            (s.checkForDependantComponents c)).1.startedComponents :=
          startDeps_no_restart ok fuel s c hc
        have hdepsdone : ∀ d ∈ s.dependantComponents c,
            d ∈ (startDeps (Service.startComponent ok fuel) s
              (s.checkForDependantComponents c)).1.startedComponents := by
          intro d hd
          by_cases hds : d ∈ s.startedComponents
          · exact (startDeps_evo (fun s' c' =>
              startComponent_evo ok fuel s' c') _ s).2.2.1.subset hds
          · exact startDeps_mem
              (fun s' c' => startComponent_evo ok fuel s' c')
              (fun s' c' h' => startComponent_mem ok fuel s' c' h')
              _ s hp d (checkFor_mem hd hds)
        have hdepeq : (startDeps (Service.startComponent ok fuel) s
            (s.checkForDependantComponents c)).1.dependantComponents
            = s.dependantComponents :=
          (startDeps_evo (fun s' c' => startComponent_evo ok fuel s' c') _ s).1
        obtain ⟨h1, h2, h3, h4⟩ := hclean1
        by_cases hok : ok c = true
        · rw [if_pos hok]
          refine ⟨fun _ => ⟨?_, ?_, ?_, ?_⟩, fun h => Res.noConfusion h⟩
          · dsimp only
            rw [h1]
          · dsimp only [Stack.Add, Stack.push]
            rw [List.map_append, h2]
            rfl
          · dsimp only
            rw [List.nodup_append]
            refine ⟨h3, List.nodup_singleton c, ?_⟩
            intro x hx hx2
            rcases List.mem_singleton.mp hx2 with rfl
            exact hnotin hx
          · dsimp only
            refine OrderedBefore.append h4 ?_
            intro d hd
            rw [hdepeq] at hd
            exact hdepsdone d hd
        · rw [if_neg hok]
          refine ⟨fun h => absurd rfl h, fun _ => ?_⟩
          refine ⟨c, ?_, hnotin, ?_, h2, h3, h4⟩
          · cases hokb : ok c
            · rfl
            · exact absurd hokb hok
          · dsimp only
            rw [← h1]
      · rw [if_neg hp]
        exact hdeps

theorem Start_evo (ok : Component → Bool) (fuel : Nat) (s : Service) :
    Evo s (Service.Start ok fuel s).1 :=
  startDeps_evo (fun s' c' => startComponent_evo ok fuel s' c') s.components s

theorem Start_inv (ok : Component → Bool) (fuel : Nat) (s : Service)
    (hs : CleanInv s) :
    ((Service.Start ok fuel s).2 ≠ Res.startErr →
      CleanInv (Service.Start ok fuel s).1) ∧
    ((Service.Start ok fuel s).2 = Res.startErr →
      ErrInv ok (Service.Start ok fuel s).1) :=
  startDeps_inv (fun s' c' hs' => startComponent_inv ok fuel s' c' hs')
    s.components s hs

/-! ### Consequences of the invariant for a configured service -/

theorem start_ok_clean (cs : List Component) (g : Graph)
    (ok : Component → Bool) (fuel : Nat)
    (h : (Service.Start ok fuel (Configured cs g)).2 = Res.ok) :
    CleanInv (Service.Start ok fuel (Configured cs g)).1 :=
  (Start_inv ok fuel _ (cleanInv_configured cs g)).1
    (fun heq => Res.noConfusion (h.symm.trans heq))

theorem start_ok_reachable_mem (cs : List Component) (g : Graph)
    (ok : Component → Bool) (fuel : Nat)
    (h : (Service.Start ok fuel (Configured cs g)).2 = Res.ok) :
    ∀ x, Reachable g cs x →
      x ∈ (Service.Start ok fuel (Configured cs g)).1.startedComponents := by
  intro x hx
  induction hx with
  | root hmem =>
    exact startDeps_mem (fun s' c' => startComponent_evo ok fuel s' c')
      (fun s' c' h' => startComponent_mem ok fuel s' c' h')
      (Configured cs g).components (Configured cs g) h _ hmem
  | dep _ hdg ih =>
    have hclean := start_ok_clean cs g ok fuel h
    have hdepg : (Service.Start ok fuel
        (Configured cs g)).1.dependantComponents = g :=
      (Start_evo ok fuel _).1
    obtain ⟨n, hn⟩ := mem_getElem? ih
    obtain ⟨m, _, hm⟩ := hclean.2.2.2 n _ hn _ (by rw [hdepg]; exact hdg)
    exact getElem?_mem hm

/-! ### Start/Stop claims -/

/-- C1: a successful `Service.Start` on a configured service invokes the
`Start` operation of every component reachable from the top-level list
exactly once, however many components depend on it directly or
transitively (e.g. the diamond's shared leaf); and a component already
marked started is skipped: `startComponent` returns success immediately,
leaving the service untouched. -/
theorem start_invokes_each_reachable_exactly_once
    (cs : List Component) (g : Graph) (ok : Component → Bool) (fuel : Nat)
    (h : (Service.Start ok fuel (Configured cs g)).2 = Res.ok) :
    (∀ x, Reachable g cs x →
      (Service.Start ok fuel (Configured cs g)).1.startCalls.count x = 1) ∧
    (∀ (s : Service) (c : Component) (n : Nat), c ∈ s.startedComponents →
      Service.startComponent ok (n + 1) s c = (s, Res.ok)) := by
  constructor
  · intro x hx
    have hclean := start_ok_clean cs g ok fuel h
    have hmem := start_ok_reachable_mem cs g ok fuel h x hx
    rw [← hclean.1]
    exact List.count_eq_one_of_mem hclean.2.2.1 hmem
  · intro s c n hc
    rw [startComponent_succ, if_pos hc]

theorem start_invokes_each_reachable_exactly_once_witness :
    (Service.Start (fun _ => true) 10
      (Configured [0, 1, 2] diamondGraph)).1.startCalls.count 2 = 1 :=
  (start_invokes_each_reachable_exactly_once [0, 1, 2] diamondGraph
    (fun _ => true) 10 (by decide)).1 2
    (Reachable.dep
      ((Reachable.root (show (0 : Component) ∈ [0, 1, 2] by decide)) :
        Reachable diamondGraph [0, 1, 2] 0)
      (show (2 : Component) ∈ diamondGraph 0 by decide))

/-- C2: the start order is deterministic depth-first: on every successful
run each dependency's `Start` completes strictly before its dependent's
begins (stated on the invocation trace), and concretely: the chain A→B→C
starts as C, B, A; sibling dependencies start in registration order; and
independent top-level components start in the caller-supplied order. -/
theorem start_order_dfs (cs : List Component) (g : Graph)
    (ok : Component → Bool) (fuel : Nat)
    (h : (Service.Start ok fuel (Configured cs g)).2 = Res.ok) :
    OrderedBefore g (Service.Start ok fuel (Configured cs g)).1.startCalls ∧
    (Service.Start (fun _ => true) 4
      (Configured [0, 1, 2] chainGraph)).1.startCalls = [2, 1, 0] ∧
    (Service.Start (fun _ => true) 4
      (Configured [0, 1, 2] sibGraph)).1.startCalls = [1, 2, 0] ∧
    (Service.Start (fun _ => true) 4
      (Configured [0, 1] (fun _ => []))).1.startCalls = [0, 1] := by
  refine ⟨?_, by decide, by decide, by decide⟩
  have hclean := start_ok_clean cs g ok fuel h
  have hdepg : (Service.Start ok fuel
      (Configured cs g)).1.dependantComponents = g :=
    (Start_evo ok fuel _).1
  rw [← hclean.1]
  have hord := hclean.2.2.2
  rw [hdepg] at hord
  exact hord

theorem start_order_dfs_witness :
    OrderedBefore chainGraph (Service.Start (fun _ => true) 4
      (Configured [0, 1, 2] chainGraph)).1.startCalls :=
  (start_order_dfs [0, 1, 2] chainGraph (fun _ => true) 4 (by decide)).1

/-- C3: after a successful `Service.Start`, `Service.Stop` invokes the
components' `Stop` operations in exactly the reverse of the order in which
their `Start` operations completed (LIFO drain of the closing stack), so
every component stops strictly before each of its dependencies. -/
theorem stop_reverse_of_start_order (cs : List Component) (g : Graph)
    (ok stopOk : Component → Bool) (fuel : Nat)
    (h : (Service.Start ok fuel (Configured cs g)).2 = Res.ok) :
    ((Service.Start ok fuel (Configured cs g)).1.Stop stopOk).1
      = (Service.Start ok fuel (Configured cs g)).1.startCalls.reverse ∧
    ∀ (n : Nat) (x : Component),
      ((Service.Start ok fuel (Configured cs g)).1.Stop stopOk).1[n]? = some x →
      ∀ d ∈ g x, ∃ m : Nat, n < m ∧
        ((Service.Start ok fuel (Configured cs g)).1.Stop stopOk).1[m]?
          = some d := by
  have hclean := start_ok_clean cs g ok fuel h
  have hdepg : (Service.Start ok fuel
      (Configured cs g)).1.dependantComponents = g :=
    (Start_evo ok fuel _).1
  have htrace : ((Service.Start ok fuel (Configured cs g)).1.Stop stopOk).1
      = (Service.Start ok fuel (Configured cs g)).1.startCalls.reverse := by
    rw [Stop_eq]
    rw [show ((Service.Start ok fuel (Configured cs g)).1.closingStack.Functions.map
        Function.action) = (Service.Start ok fuel (Configured cs g)).1.startCalls
      from hclean.1 ▸ hclean.2.1]
  refine ⟨htrace, ?_⟩
  intro n x hx d hd
  rw [htrace] at hx
  have hord : OrderedBefore g
      (Service.Start ok fuel (Configured cs g)).1.startCalls := by
    rw [← hclean.1]
    have hord0 := hclean.2.2.2
    rw [hdepg] at hord0
    exact hord0
  have hn : n < (Service.Start ok fuel (Configured cs g)).1.startCalls.length := by
    have := (List.getElem?_eq_some.mp hx).fst
    rwa [List.length_reverse] at this
  have hx' : (Service.Start ok fuel (Configured cs g)).1.startCalls[
      (Service.Start ok fuel (Configured cs g)).1.startCalls.length - 1 - n]?
      = some x := by
    rw [← List.getElem?_reverse hn]
    exact hx
  obtain ⟨m0, hm0lt, hm0⟩ := hord _ x hx' d hd
  have hm0len : m0 <
      (Service.Start ok fuel (Configured cs g)).1.startCalls.length :=
    (List.getElem?_eq_some.mp hm0).fst
  refine ⟨(Service.Start ok fuel (Configured cs g)).1.startCalls.length - 1
    - m0, by omega, ?_⟩
  rw [htrace, List.getElem?_reverse (by omega)]
  have heq : (Service.Start ok fuel (Configured cs g)).1.startCalls.length - 1
      - ((Service.Start ok fuel (Configured cs g)).1.startCalls.length - 1
        - m0) = m0 := by omega
  rw [heq]
  exact hm0

theorem stop_reverse_of_start_order_witness :
    ((Service.Start (fun _ => true) 4
        (Configured [0, 1, 2] chainGraph)).1.Stop (fun _ => true)).1
      = (Service.Start (fun _ => true) 4
        (Configured [0, 1, 2] chainGraph)).1.startCalls.reverse :=
  (stop_reverse_of_start_order [0, 1, 2] chainGraph (fun _ => true)
    (fun _ => true) 4 (by decide)).1

/-- C4: when some component's `Start` fails during `Service.Start`, the run
aborts with the error (`Res.startErr`): the failing component `f` was the
last `Start` invocation (no component later in traversal order is
invoked), `f` is not marked started and has no teardown action on the
closing stack, and the components invoked before the failure are exactly
those still marked started (no rollback). -/
theorem start_failfast (cs : List Component) (g : Graph)
    (ok : Component → Bool) (fuel : Nat)
    (h : (Service.Start ok fuel (Configured cs g)).2 = Res.startErr) :
    ∃ f, ok f = false ∧
      f ∉ (Service.Start ok fuel (Configured cs g)).1.startedComponents ∧
      (Service.Start ok fuel (Configured cs g)).1.startCalls
        = (Service.Start ok fuel (Configured cs g)).1.startedComponents
          ++ [f] ∧
      (Service.Start ok fuel
          (Configured cs g)).1.closingStack.Functions.map Function.action
        = (Service.Start ok fuel (Configured cs g)).1.startedComponents := by
  obtain ⟨f, h1, h2, h3, h4, _, _⟩ :=
    (Start_inv ok fuel _ (cleanInv_configured cs g)).2 h
  exact ⟨f, h1, h2, h3, h4⟩

theorem start_failfast_witness :
    ∃ f, (fun c => decide (c ≠ 1)) f = false ∧
      f ∉ (Service.Start (fun c => decide (c ≠ 1)) 4
        (Configured [0, 1, 2] chainGraph)).1.startedComponents ∧
      (Service.Start (fun c => decide (c ≠ 1)) 4
          (Configured [0, 1, 2] chainGraph)).1.startCalls
        = (Service.Start (fun c => decide (c ≠ 1)) 4
            (Configured [0, 1, 2] chainGraph)).1.startedComponents ++ [f] ∧
      (Service.Start (fun c => decide (c ≠ 1)) 4
          (Configured [0, 1, 2] chainGraph)).1.closingStack.Functions.map
            Function.action
        = (Service.Start (fun c => decide (c ≠ 1)) 4
            (Configured [0, 1, 2] chainGraph)).1.startedComponents :=
  start_failfast [0, 1, 2] chainGraph (fun c => decide (c ≠ 1)) 4 (by decide)

/-- C5: whenever `Service.Start` returns — successfully or not — the
closing stack holds exactly one teardown action per component in the
started set, in start-completion order (it is the started list itself,
which records completion order and has no duplicates); and after
`Service.Stop`'s drain the closing stack of any service is empty. -/
theorem closing_stack_matches_started (cs : List Component) (g : Graph)
    (ok stopOk : Component → Bool) (fuel : Nat) :
    ((Service.Start ok fuel
        (Configured cs g)).1.closingStack.Functions.map Function.action
      = (Service.Start ok fuel (Configured cs g)).1.startedComponents) ∧
    (Service.Start ok fuel (Configured cs g)).1.startedComponents.Nodup ∧
    (∀ s : Service, (s.Stop stopOk).2.2.closingStack.Functions = []) := by
  have hempty : ∀ s : Service,
      (s.Stop stopOk).2.2.closingStack.Functions = [] := by
    intro s
    rw [Stop_eq]
  have hinv := Start_inv ok fuel _ (cleanInv_configured cs g)
  by_cases hr : (Service.Start ok fuel (Configured cs g)).2 = Res.startErr
  · obtain ⟨f, _, _, _, h4, h5, _⟩ := hinv.2 hr
    exact ⟨h4, h5, hempty⟩
  · obtain ⟨_, h2, h3, _⟩ := hinv.1 hr
    exact ⟨h2, h3, hempty⟩

/-! ### Termination on ranked (acyclic) graphs, divergence on cycles -/

theorem startDeps_rank {g : Graph} {r : Component → Nat}
    {step : Service → Component → Service × Res} {fuel : Nat}
    (hframe : ∀ s c, (step s c).1.dependantComponents = s.dependantComponents)
    (hstep : ∀ s c, s.dependantComponents = g → r c < fuel →
      (step s c).2 ≠ Res.noFuel) :
    ∀ (ds : List Component) (s : Service), s.dependantComponents = g →
      (∀ d ∈ ds, r d < fuel) →
      (startDeps step s ds).2 ≠ Res.noFuel := by
  intro ds
  induction ds with
  | nil =>
    intro s _ _ h
    exact Res.noConfusion h
  | cons d rest ih =>
    intro s hg hb
    rw [startDeps_cons]
    by_cases hp : (step s d).2 = Res.ok
    · rw [if_pos hp]
      exact ih _ ((hframe s d).trans hg)
        (fun e he => hb e (List.mem_cons_of_mem d he))
    · rw [if_neg hp]
      exact hstep s d hg (hb d (List.mem_cons_self d rest))

theorem startComponent_rank (ok : Component → Bool) (g : Graph)
    (r : Component → Nat) (hrank : ∀ x d, d ∈ g x → r d < r x) :
    ∀ (fuel : Nat) (s : Service) (c : Component), s.dependantComponents = g →
      r c < fuel → (Service.startComponent ok fuel s c).2 ≠ Res.noFuel := by
  intro fuel
  induction fuel with
  | zero =>
    intro s c _ hrc
    exact absurd hrc (Nat.not_lt_zero _)
  | succ fuel ih =>
    intro s c hg hrc
    rw [startComponent_succ]
    by_cases hc : c ∈ s.startedComponents
    · rw [if_pos hc]
      exact fun h => Res.noConfusion h
    · rw [if_neg hc]
      have hds : ∀ d ∈ s.checkForDependantComponents c, r d < fuel := by
        intro d hd
        have hdg : d ∈ g c := hg ▸ (mem_checkFor hd).1
        have := hrank c d hdg
        omega
      have hdep := startDeps_rank
        (fun s' c' => (startComponent_evo ok fuel s' c').1)
        (fun s' c' hg' hr' => ih s' c' hg' hr') _ s hg hds
      by_cases hp : (startDeps (Service.startComponent ok fuel) s
          (s.checkForDependantComponents c)).2 = Res.ok
      · rw [if_pos hp]
        by_cases hok : ok c = true
        · rw [if_pos hok]
          exact fun h => Res.noConfusion h
        · rw [if_neg hok]
          exact fun h => Res.noConfusion h
      · rw [if_neg hp]
        exact hdep

/-- A self-dependent component makes `startComponent` exhaust any amount of
fuel without changing the service (Go: unbounded recursion). -/
theorem selfLoop_stuck :
    ∀ n : Nat, Service.startComponent (fun _ => true) n
        (Configured [0] selfLoopGraph) 0
      = (Configured [0] selfLoopGraph, Res.noFuel) := by
  intro n
  induction n with
  | zero => rfl
  | succ n ih =>
    rw [startComponent_succ,
      if_neg (show ¬ (0 : Component) ∈
        (Configured [0] selfLoopGraph).startedComponents by decide)]
    rw [show (Configured [0] selfLoopGraph).checkForDependantComponents 0
      = [0] by decide]
    rw [startDeps_cons, ih]
    simp

/-- Around the registered three-node cycle 0→1→2→0, `startComponent`
exhausts any amount of fuel without changing the service. -/
theorem cycle3_stuck :
    ∀ n : Nat,
      Service.startComponent (fun _ => true) n cycle3Service 0
        = (cycle3Service, Res.noFuel) ∧
      Service.startComponent (fun _ => true) n cycle3Service 1
        = (cycle3Service, Res.noFuel) ∧
      Service.startComponent (fun _ => true) n cycle3Service 2
        = (cycle3Service, Res.noFuel) := by
  intro n
  induction n with
  | zero => exact ⟨rfl, rfl, rfl⟩
  | succ n ih =>
    obtain ⟨ih0, ih1, ih2⟩ := ih
    refine ⟨?_, ?_, ?_⟩
    · rw [startComponent_succ,
        if_neg (show ¬ (0 : Component) ∈ cycle3Service.startedComponents
          by decide)]
      rw [show cycle3Service.checkForDependantComponents 0 = [1] by decide]
      rw [startDeps_cons, ih1]
      simp
    · rw [startComponent_succ,
        if_neg (show ¬ (1 : Component) ∈ cycle3Service.startedComponents
          by decide)]
      rw [show cycle3Service.checkForDependantComponents 1 = [2] by decide]
      rw [startDeps_cons, ih2]
      simp
    · rw [startComponent_succ,
        if_neg (show ¬ (2 : Component) ∈ cycle3Service.startedComponents
          by decide)]
      rw [show cycle3Service.checkForDependantComponents 2 = [0] by decide]
      rw [startDeps_cons, ih0]
      simp

/-- C9: whenever the registered dependency relation is acyclic — witnessed
in the standard way by a topological rank `r` that strictly decreases
along every dependency edge — the recursion in `startComponent` is
well-founded: with fuel above the component's rank it never exhausts its
fuel, and `Service.Start` terminates once the fuel exceeds every top-level
rank.  Registration only partially enforces this precondition: a self-edge
and a three-node cycle both pass registration, and each makes the
recursion unbounded (it exhausts every amount of fuel). -/
theorem start_terminates_on_acyclic_graphs
    (g : Graph) (r : Component → Nat) (cs : List Component)
    (ok : Component → Bool) (fuel : Nat) (s : Service) (c : Component)
    (hrank : ∀ x d, d ∈ g x → r d < r x) :
    (s.dependantComponents = g → r c < fuel →
      (Service.startComponent ok fuel s c).2 ≠ Res.noFuel) ∧
    ((∀ x ∈ cs, r x < fuel) →
      (Service.Start ok fuel (Configured cs g)).2 ≠ Res.noFuel) ∧
    (((NewService [0]).RegisterDependentComponents 0 0).1 = none ∧
      ∀ n : Nat, (Service.Start (fun _ => true) n
        (Configured [0] selfLoopGraph)).2 = Res.noFuel) ∧
    (((NewService [0, 1, 2]).RegisterDependentComponents 0 1).1 = none ∧
      (((NewService [0, 1, 2]).RegisterDependentComponents
        0 1).2.RegisterDependentComponents 1 2).1 = none ∧
      ((((NewService [0, 1, 2]).RegisterDependentComponents
        0 1).2.RegisterDependentComponents 1 2).2.RegisterDependentComponents
          2 0).1 = none ∧
      ∀ n : Nat, (Service.Start (fun _ => true) n cycle3Service).2
        = Res.noFuel) := by
  refine ⟨startComponent_rank ok g r hrank fuel s c, ?_, ⟨by decide, ?_⟩,
    by decide, by decide, by decide, ?_⟩
  · intro hb
    exact startDeps_rank
      (fun s' c' => (startComponent_evo ok fuel s' c').1)
      (fun s' c' hg' hr' => startComponent_rank ok g r hrank fuel s' c'
        hg' hr') cs (Configured cs g) rfl hb
  · intro n
    show (startDeps (Service.startComponent (fun _ => true) n)
      (Configured [0] selfLoopGraph)
      (Configured [0] selfLoopGraph).components).2 = Res.noFuel
    rw [show (Configured [0] selfLoopGraph).components = [0] from rfl]
    rw [startDeps_cons, selfLoop_stuck n]
    simp
  · intro n
    show (startDeps (Service.startComponent (fun _ => true) n)
      cycle3Service cycle3Service.components).2 = Res.noFuel
    rw [show cycle3Service.components = [0, 1, 2] from rfl]
    rw [startDeps_cons, (cycle3_stuck n).1]
    simp

theorem start_terminates_on_acyclic_graphs_witness :
    (Service.Start (fun _ => true) 4
      (Configured [0, 1, 2] chainGraph)).2 ≠ Res.noFuel :=
  (start_terminates_on_acyclic_graphs chainGraph (fun c => 3 - c) [0, 1, 2]
    (fun _ => true) 4 (Configured [0, 1, 2] chainGraph) 0
    (by
      intro x d hd
      unfold chainGraph at hd
      split_ifs at hd with h0 h1
      · rcases List.mem_singleton.mp hd with rfl
        subst h0
        decide
      · rcases List.mem_singleton.mp hd with rfl
        subst h1
        decide
      · exact absurd hd (List.not_mem_nil d))).2.1
    (by decide)

end Framework
